import Mathlib

/-!
Verification of the MeiliSearch HTTP write path (meilisearch-http crate):
schema inference, access control, the mutation handlers and their
transaction discipline, the health flag and the key-listing route.

Handlers from `src/routes/document.rs`, `src/routes/health.rs`,
`src/routes/key.rs` and `src/helpers/tide.rs` are embedded shallowly.
The meilisearch-core primitives they call (`compute_document_id`,
`value_to_string`, update finalization, addition/deletion application)
are not part of the given source slice and are modelled from the spec;
each such definition carries a `Modelled from the spec:` doc comment.
-/

/-! ## Strings: lowercasing and substring containment

Rust's `key.to_lowercase().contains("id")` from `infered_schema`
(`src/routes/document.rs`). -/

/-- Rust `str::to_lowercase`, restricted to per-character lowercasing. -/
def to_lowercase (s : String) : String :=
  String.mk (s.toList.map Char.toLower)

/-- Rust `str::contains(pat)` on character lists: some suffix of the
haystack starts with the pattern. -/
def contains_sub_list (pat : List Char) : List Char → Bool
  | [] => pat.isEmpty
  | c :: rest => pat.isPrefixOf (c :: rest) || contains_sub_list pat rest

/-- Rust `str::contains(pat)`. -/
def contains_sub (hay pat : String) : Bool :=
  contains_sub_list pat.toList hay.toList

theorem contains_sub_list_iff_infix (pat hay : List Char) :
    contains_sub_list pat hay = true ↔ pat <:+: hay := by
  induction hay with
  | nil =>
    simp [contains_sub_list, List.isEmpty_iff]
  | cons c rest ih =>
    simp [contains_sub_list, List.infix_cons_iff, ih,
      List.isPrefixOf_iff_prefix]

/-- The attribute-name test in `infered_schema`:
`key.to_lowercase().contains("id")`. -/
def is_id_key (key : String) : Bool :=
  contains_sub (to_lowercase key) "id"

theorem is_id_key_iff_infix (key : String) :
    is_id_key key = true ↔ "id".toList <:+: (to_lowercase key).toList := by
  simp [is_id_key, contains_sub, contains_sub_list_iff_infix]

/-! ## Document values

Design note of the spec: attribute values are a tagged variant; the
claims only exercise scalar values, so arrays/objects are omitted. -/

inductive Val where
  | str (s : String)
  | num (n : Int)
  | bool (b : Bool)
  | null
deriving DecidableEq, Repr

/-- A document: an ordered attribute map (`IndexMap<String, Value>`),
keys unique by construction in the source. -/
abbrev Document := List (String × Val)

/-- Modelled from the spec: `meilisearch_core::serde::value_to_string`
(not under src/) converts a scalar JSON value to the string fed to the
document-id derivation; non-scalar values yield nothing. -/
def value_to_string : Val → Option String
  | .str s => some s
  | .num n => some (toString n)
  | .bool b => some (toString b)
  | .null => none

/-- Modelled from the spec: `meilisearch_core::serde::compute_document_id`
(not under src/) — a stable, deterministic hash of the identifier
string; modelled as a 64-bit polynomial hash. -/
def compute_document_id (s : String) : Nat :=
  s.toList.foldl (fun h c => (h * 31 + c.toNat) % (2 ^ 64)) 5381

/-! ## Schema inference (`infered_schema`, `src/routes/document.rs`) -/

structure SchemaAttr where
  name : String
  displayed : Bool
  indexed : Bool
deriving DecidableEq, Repr

structure Schema where
  identifier : String
  attributes : List SchemaAttr
deriving DecidableEq, Repr

/-- The identifier-selection loop of `infered_schema`: scan the keys in
order, keep the first one whose lowercased name contains "id". -/
def find_identifier (keys : List String) : Option String :=
  keys.foldl
    (fun identifier key =>
      if identifier.isNone && is_id_key key then some key else identifier)
    none

theorem find_identifier_foldl_some (keys : List String) (x : String) :
    keys.foldl
      (fun identifier key =>
        if identifier.isNone && is_id_key key then some key else identifier)
      (some x) = some x := by
  induction keys with
  | nil => rfl
  | cons k ks ih => simpa using ih

theorem find_identifier_eq_find (keys : List String) :
    find_identifier keys = keys.find? is_id_key := by
  induction keys with
  | nil => rfl
  | cons k ks ih =>
    cases h : is_id_key k with
    | true =>
      have hstep : (if (none : Option String).isNone && is_id_key k
          then some k else (none : Option String)) = some k := by simp [h]
      rw [find_identifier, List.foldl_cons]
      simp only [hstep]
      rw [find_identifier_foldl_some, List.find?_cons_of_pos _ h]
    | false =>
      have hstep : (if (none : Option String).isNone && is_id_key k
          then some k else (none : Option String)) = none := by simp [h]
      rw [find_identifier, List.foldl_cons]
      simp only [hstep]
      rw [← find_identifier, ih, List.find?_cons_of_neg]
      simp [h]

/-- Embeds `infered_schema` (`src/routes/document.rs:120-140`): pick the first
"id"-containing key as identifier, give every key DISPLAYED | INDEXED. -/
def infered_schema (document : Document) : Option Schema :=
  match find_identifier (document.map Prod.fst) with
  | some identifier =>
      some ⟨identifier,
        (document.map Prod.fst).map (fun key => ⟨key, true, true⟩)⟩
  | none => none

/-! ## Access control (`src/helpers/tide.rs`) -/

/-- The variants of `ResponseError` the embedded routes construct. -/
inductive ResponseError where
  | internal (msg : String)
  | bad_request (msg : String)
  | missing_header (name : String)
  | invalid_token (token : String)
  | maintenance
  | document_not_found (id : String)
  | index_not_found (uid : String)
deriving DecidableEq, Repr

inductive ACL where
  | Admin
  | Private
  | Public
deriving DecidableEq, Repr

/-- The three-tier key set (`Data.api_keys`); `private`/`public` are Lean
keywords, hence the `_key` suffixes. -/
structure ApiKeys where
  master : Option String
  private_key : Option String
  public_key : Option String
deriving DecidableEq, Repr

/-- Request headers as an association list of name/value pairs. -/
abbrev Headers := List (String × String)

/-- Embeds `ContextExt::header` (`src/helpers/tide.rs:54-63`). -/
def header (headers : Headers) (name : String) : Except ResponseError String :=
  match headers.find? (fun p => p.1 == name) with
  | some p => .ok p.2
  | none => .error (.missing_header name)

/-- Embeds `ContextExt::is_allowed` (`src/helpers/tide.rs:21-52`). -/
def is_allowed (keys : ApiKeys) (headers : Headers) (acl : ACL) :
    Except ResponseError Unit :=
  match header headers "X-Meili-API-Key" with
  | .error e => .error e
  | .ok user_api_key =>
    match acl with
    | .Admin =>
      if some user_api_key == keys.master then .ok ()
      else .error (.invalid_token user_api_key)
    | .Private =>
      if some user_api_key == keys.master then .ok ()
      else if some user_api_key == keys.private_key then .ok ()
      else .error (.invalid_token user_api_key)
    | .Public =>
      if some user_api_key == keys.master then .ok ()
      else if some user_api_key == keys.private_key then .ok ()
      else if some user_api_key == keys.public_key then .ok ()
      else .error (.invalid_token user_api_key)

/-- The tier rule the `is_allowed` branches implement, as a predicate on
the presented credential. -/
def satisfies_acl (keys : ApiKeys) (acl : ACL) (cred : String) : Bool :=
  match acl with
  | .Admin => some cred == keys.master
  | .Private => some cred == keys.master || some cred == keys.private_key
  | .Public => some cred == keys.master || some cred == keys.private_key
      || some cred == keys.public_key

theorem is_allowed_ok_iff (keys : ApiKeys) (headers : Headers) (acl : ACL) :
    is_allowed keys headers acl = .ok () ↔
      ∃ cred, header headers "X-Meili-API-Key" = .ok cred ∧
        satisfies_acl keys acl cred = true := by
  unfold is_allowed satisfies_acl
  cases h : header headers "X-Meili-API-Key" with
  | error e => simp [h]
  | ok cred =>
    cases acl <;> simp [h] <;> tauto

theorem is_allowed_single_header (keys : ApiKeys) (cred : String) (acl : ACL) :
    is_allowed keys [("X-Meili-API-Key", cred)] acl =
      (if satisfies_acl keys acl cred then .ok ()
       else .error (.invalid_token cred)) := by
  have hh : header [("X-Meili-API-Key", cred)] "X-Meili-API-Key" = .ok cred := rfl
  unfold is_allowed satisfies_acl
  rw [hh]
  cases acl with
  | Admin => rfl
  | Private =>
    cases ha : (some cred == keys.master) <;>
      cases hb : (some cred == keys.private_key) <;> simp [ha, hb]
  | Public =>
    cases ha : (some cred == keys.master) <;>
      cases hb : (some cred == keys.private_key) <;>
        cases hc : (some cred == keys.public_key) <;> simp [ha, hb, hc]

/-! ## Index state, updates and the transaction discipline

The handlers stage work in a write transaction and only make it visible
on commit. `DbState` is the committed state of one index's stores; a
transaction is modelled as a staged copy of it that replaces the
committed state exactly when commit succeeds. -/

/-- The document store: internal document-id to stored document. -/
abbrev Store := List (Nat × Document)

/-- The kind of a staged update (spec §3, "Update"). -/
inductive UpdateKind where
  | addition (partial_flag : Bool) (docs : List Document)
  | deletion (ids : List Nat)
  | clear
deriving DecidableEq, Repr

/-- Committed state of one index: its schema, its applied documents,
the next update-id and the queue of accepted-but-unprocessed updates. -/
structure DbState where
  schema : Option Schema
  documents : Store
  next_update_id : Nat
  pending : List (Nat × UpdateKind)
deriving DecidableEq, Repr

/-- Injection points for store/transaction failures: each flag makes the
corresponding fallible call of the handlers return `Err`. -/
structure FailureOracle where
  main_read_fails : Bool
  update_write_fails : Bool
  schema_update_fails : Bool
  finalize_fails : Bool
  commit_fails : Bool
deriving DecidableEq, Repr

def no_fail : FailureOracle := ⟨false, false, false, false, false⟩

/-- Only-commit-fails oracle, for the commit-failure clause of the spec. -/
def commit_fail_oracle : FailureOracle := ⟨false, false, false, false, true⟩

/-- The schema-inference step of `update_multiple_documents`
(`src/routes/document.rs:153-166`): with a schema present nothing is
staged; with none, infer from `data.first()` or reject the batch. -/
def stage_schema (current_schema : Option Schema) (data : List Document) :
    Except ResponseError (Option Schema) :=
  match current_schema with
  | some _ => .ok none
  | none =>
    match data.head?.bind infered_schema with
    | some schema => .ok (some schema)
    | none => .error (.bad_request "Could not infer a schema")

/-- Modelled from the spec: `finalize` + `commit` of meilisearch-core's
update store (not under src/). `finalize` allocates the update-id from
the index counter inside the write transaction and enqueues the staged
update; `commit` atomically replaces the committed state, so a failed
finalize or commit leaves the committed state `st` untouched and
consumes no id. -/
def finalize_commit (f : FailureOracle) (st staged : DbState)
    (kind : UpdateKind) : Except ResponseError Nat × DbState :=
  if f.finalize_fails then (.error (.internal "finalize"), st)
  else
    let update_id := staged.next_update_id
    let staged2 : DbState :=
      { staged with
          next_update_id := staged.next_update_id + 1,
          pending := staged.pending ++ [(update_id, kind)] }
    if f.commit_fails then (.error (.internal "commit"), st)
    else (.ok update_id, staged2)

/-- Embeds `update_multiple_documents` (`src/routes/document.rs:142-188`):
auth, open read and update-write transactions, infer/stage a schema if
none exists, stage the (partial) addition, finalize and commit. The
first component is the response (update-id or error); the second is the
committed state the store holds afterwards. -/
def update_multiple_documents (f : FailureOracle) (keys : ApiKeys)
    (headers : Headers) ( is_partial : Bool) (data : List Document)
    (st : DbState) : Except ResponseError Nat × DbState :=
  match is_allowed keys headers ACL.Private with
  | .error e => (.error e, st)
  | .ok _ =>
    if f.main_read_fails then (.error (.internal "main_read_txn"), st)
    else if f.update_write_fails then (.error (.internal "update_write_txn"), st)
    else
      match stage_schema st.schema data with
      | .error e => (.error e, st)
      | .ok staged_schema =>
        if f.schema_update_fails && staged_schema.isSome then
          (.error (.internal "schema_update"), st)
        else
          let staged : DbState :=
            match staged_schema with
            | some schema => { st with schema := some schema }
            | none => st
          finalize_commit f st staged (.addition is_partial data)

/-- Embeds `add_or_replace_multiple_documents` (`src/routes/document.rs:190`). -/
def add_or_replace_multiple_documents (f : FailureOracle) (keys : ApiKeys)
    (headers : Headers) (data : List Document) (st : DbState) :
    Except ResponseError Nat × DbState :=
  update_multiple_documents f keys headers false data st

/-- Embeds `add_or_update_multiple_documents` (`src/routes/document.rs:194`). -/
def add_or_update_multiple_documents (f : FailureOracle) (keys : ApiKeys)
    (headers : Headers) (data : List Document) (st : DbState) :
    Except ResponseError Nat × DbState :=
  update_multiple_documents f keys headers true data st

/-- The id-derivation loop of `delete_multiple_documents`
(`src/routes/document.rs:209-214`): keep the values `value_to_string`
accepts and hash each with `compute_document_id`. -/
def deletion_ids (data : List Val) : List Nat :=
  data.filterMap (fun identifier =>
    (value_to_string identifier).map compute_document_id)

/-- Embeds `delete_multiple_documents` (`src/routes/document.rs:198-226`). -/
def delete_multiple_documents (f : FailureOracle) (keys : ApiKeys)
    (headers : Headers) (data : List Val) (st : DbState) :
    Except ResponseError Nat × DbState :=
  match is_allowed keys headers ACL.Private with
  | .error e => (.error e, st)
  | .ok _ =>
    if f.update_write_fails then (.error (.internal "update_write_txn"), st)
    else finalize_commit f st st (.deletion (deletion_ids data))

/-- Embeds `delete_document` (`src/routes/document.rs:45-67`): deletion of one
document whose raw identifier arrives as a URL parameter. -/
def delete_document (f : FailureOracle) (keys : ApiKeys) (headers : Headers)
    (identifier : String) (st : DbState) : Except ResponseError Nat × DbState :=
  match is_allowed keys headers ACL.Private with
  | .error e => (.error e, st)
  | .ok _ =>
    if f.update_write_fails then (.error (.internal "update_write_txn"), st)
    else finalize_commit f st st (.deletion [compute_document_id identifier])

/-- Embeds `clear_all_documents` (`src/routes/document.rs:228-245`). -/
def clear_all_documents (f : FailureOracle) (keys : ApiKeys)
    (headers : Headers) (st : DbState) : Except ResponseError Nat × DbState :=
  match is_allowed keys headers ACL.Private with
  | .error e => (.error e, st)
  | .ok _ =>
    if f.update_write_fails then (.error (.internal "update_write_txn"), st)
    else finalize_commit f st st .clear

/-! ## Applying staged updates (modelled from the spec)

The indexing engine that consumes staged updates lives in
meilisearch-core, outside the given source slice; its document-level
semantics is modelled from spec §3 ("Document") and §4.3. -/

/-- Modelled from the spec: the write-time document-id derivation (core
serde, not under src/) — extract the identifier attribute's value,
stringify it, hash it with `compute_document_id`. A document lacking
the identifier attribute gets no id (and is skipped without error). -/
def document_id_of (schema : Schema) (doc : Document) : Option Nat :=
  (doc.lookup schema.identifier).bind
    (fun v => (value_to_string v).map compute_document_id)

/-- Modelled from the spec: partial-update merge — incoming attributes
override, attributes of the old document absent from the new one are
retained. -/
def merge_document (old new : Document) : Document :=
  new ++ old.filter (fun p => (new.lookup p.1).isNone)

/-- Replace-or-insert one document under its internal id. -/
def store_replace (store : Store) (id : Nat) (doc : Document) : Store :=
  (id, doc) :: store.filter (fun p => !(p.1 == id))

/-- Modelled from the spec: applying a (partial) documents addition
(core `DocumentsAddition`/`DocumentsPartialAddition`, not under src/).
Full replace overwrites wholesale; partial update merges into the
existing document and inserts absent documents as-is. -/
def apply_addition ( is_partial : Bool) (schema : Schema)
    (docs : List Document) (store : Store) : Store :=
  docs.foldl
    (fun store doc =>
      match document_id_of schema doc with
      | none => store
      | some id =>
        if is_partial then
          match store.lookup id with
          | some old => store_replace store id (merge_document old doc)
          | none => store_replace store id doc
        else store_replace store id doc)
    store

/-- Modelled from the spec: asynchronous processing of one staged
update by the engine (not under src/). Deletions of absent ids are
silent no-ops; clear-all empties the store; an addition needs the
schema that was committed with or before it. -/
def process_update (schema : Option Schema) (kind : UpdateKind)
    (store : Store) : Except String Store :=
  match kind with
  | .addition partial_flag docs =>
    match schema with
    | some s => .ok (apply_addition partial_flag s docs store)
    | none => .error "missing schema"
  | .deletion ids => .ok (store.filter (fun p => !(ids.contains p.1)))
  | .clear => .ok []

/-! ## Health flag (`src/routes/health.rs`) -/

def UNHEALTHY_KEY : String := "_is_unhealthy"

/-- The common key-value store, as the set of present unit keys. -/
abbrev CommonStore := List String

/-- Embeds `get_health` (`src/routes/health.rs:12-23`): no credential check;
report `Maintenance` exactly when the unhealthy key is present. -/
def get_health (read_fails : Bool) (store : CommonStore) :
    Except ResponseError Unit :=
  if read_fails then .error (.internal "main_read_txn")
  else if store.contains UNHEALTHY_KEY then .error .maintenance
  else .ok ()

/-- Embeds `set_healthy` (`src/routes/health.rs:25-42`): Admin-gated delete of
the unhealthy key, committed atomically. -/
def set_healthy (write_fails delete_fails commit_fails : Bool)
    (keys : ApiKeys) (headers : Headers) (store : CommonStore) :
    Except ResponseError Unit × CommonStore :=
  match is_allowed keys headers ACL.Admin with
  | .error e => (.error e, store)
  | .ok _ =>
    if write_fails then (.error (.internal "main_write_txn"), store)
    else if delete_fails then (.error (.internal "delete"), store)
    else if commit_fails then (.error (.internal "commit"), store)
    else (.ok (), store.filter (fun k => !(k == UNHEALTHY_KEY)))

/-- Embeds `set_unhealthy` (`src/routes/health.rs:44-61`): Admin-gated put of
the unhealthy key, committed atomically. -/
def set_unhealthy (write_fails put_fails commit_fails : Bool)
    (keys : ApiKeys) (headers : Headers) (store : CommonStore) :
    Except ResponseError Unit × CommonStore :=
  match is_allowed keys headers ACL.Admin with
  | .error e => (.error e, store)
  | .ok _ =>
    if write_fails then (.error (.internal "main_write_txn"), store)
    else if put_fails then (.error (.internal "put"), store)
    else if commit_fails then (.error (.internal "commit"), store)
    else (.ok (),
      if store.contains UNHEALTHY_KEY then store else UNHEALTHY_KEY :: store)

/-! ## Key listing (`src/routes/key.rs`) -/

/-- The JSON body `list` returns: only the private and public keys. -/
structure KeysResponse where
  private_key : Option String
  public_key : Option String
deriving DecidableEq, Repr

/-- Embeds `list` (`src/routes/key.rs:8-17`). -/
def list (keys : ApiKeys) (headers : Headers) :
    Except ResponseError KeysResponse :=
  match is_allowed keys headers ACL.Admin with
  | .error e => .error e
  | .ok _ => .ok ⟨keys.private_key, keys.public_key⟩

/-! ## Sequences of mutations -/

/-- One submitted mutation, dispatching to the five handlers. -/
inductive Mutation where
  | add_or_replace (docs : List Document)
  | add_or_update (docs : List Document)
  | delete_batch (vals : List Val)
  | delete_one (identifier : String)
  | clear_batch
deriving Repr

def step (f : FailureOracle) (keys : ApiKeys) (headers : Headers) :
    Mutation → DbState → Except ResponseError Nat × DbState
  | .add_or_replace docs, st =>
      add_or_replace_multiple_documents f keys headers docs st
  | .add_or_update docs, st =>
      add_or_update_multiple_documents f keys headers docs st
  | .delete_batch vals, st => delete_multiple_documents f keys headers vals st
  | .delete_one identifier, st => delete_document f keys headers identifier st
  | .clear_batch, st => clear_all_documents f keys headers st

/-- Run a sequence of submissions, each with its own failure injection,
collecting the update-ids of the accepted (committed) ones in order. -/
def run_mutations (keys : ApiKeys) (headers : Headers) :
    List (FailureOracle × Mutation) → DbState → DbState × List Nat
  | [], st => (st, [])
  | fm :: ms, st =>
    match step fm.1 keys headers fm.2 st with
    | (.ok i, st1) =>
      let r := run_mutations keys headers ms st1
      (r.1, i :: r.2)
    | (.error _, st1) => run_mutations keys headers ms st1

/-! ## Helper lemmas -/

theorem is_allowed_eq (keys : ApiKeys) (headers : Headers) (acl : ACL) :
    is_allowed keys headers acl =
      match headers.find? (fun p => p.1 == "X-Meili-API-Key") with
      | none => .error (.missing_header "X-Meili-API-Key")
      | some p =>
        if satisfies_acl keys acl p.2 then .ok ()
        else .error (.invalid_token p.2) := by
  unfold is_allowed header satisfies_acl
  cases hf : headers.find? (fun p => p.1 == "X-Meili-API-Key") with
  | none => rfl
  | some p =>
    cases acl with
    | Admin => rfl
    | Private =>
      cases ha : (some p.2 == keys.master) <;>
        cases hb : (some p.2 == keys.private_key) <;> simp [ha, hb]
    | Public =>
      cases ha : (some p.2 == keys.master) <;>
        cases hb : (some p.2 == keys.private_key) <;>
          cases hc : (some p.2 == keys.public_key) <;> simp [ha, hb, hc]

theorem finalize_commit_eq (f : FailureOracle) (st staged : DbState)
    (kind : UpdateKind) :
    finalize_commit f st staged kind =
      if f.finalize_fails then (.error (.internal "finalize"), st)
      else if f.commit_fails then (.error (.internal "commit"), st)
      else (.ok staged.next_update_id,
        { staged with
            next_update_id := staged.next_update_id + 1,
            pending :=
              staged.pending ++ [(staged.next_update_id, kind)] }) := rfl

/-- Every handler invocation either rejects leaving the committed state
untouched, or accepts, returning the current counter value as the
update-id and bumping the counter by one. -/
theorem step_shape (f : FailureOracle) (keys : ApiKeys) (headers : Headers)
    (m : Mutation) (st : DbState) :
    (∃ e, step f keys headers m st = (.error e, st)) ∨
    (∃ st1, step f keys headers m st = (.ok st.next_update_id, st1) ∧
       st1.next_update_id = st.next_update_id + 1) := by
  obtain ⟨fr, fw, fs, ff, fc⟩ := f
  have main :
      ∀ ( is_partial : Bool) (data : List Document),
        (∃ e, update_multiple_documents ⟨fr, fw, fs, ff, fc⟩ keys headers
            is_partial data st = (.error e, st)) ∨
        (∃ st1, update_multiple_documents ⟨fr, fw, fs, ff, fc⟩ keys headers
            is_partial data st = (.ok st.next_update_id, st1) ∧
          st1.next_update_id = st.next_update_id + 1) := by
    intro p data
    unfold update_multiple_documents finalize_commit
    cases hA : is_allowed keys headers ACL.Private with
    | error e => exact Or.inl ⟨e, rfl⟩
    | ok u =>
      cases fr
      · cases fw
        · cases hs : stage_schema st.schema data with
          | error e => exact Or.inl ⟨e, rfl⟩
          | ok os =>
            cases os with
            | none =>
              cases fs
              · cases ff
                · cases fc
                  · exact Or.inr ⟨_, rfl, rfl⟩
                  · exact Or.inl ⟨_, rfl⟩
                · exact Or.inl ⟨_, rfl⟩
              · cases ff
                · cases fc
                  · exact Or.inr ⟨_, rfl, rfl⟩
                  · exact Or.inl ⟨_, rfl⟩
                · exact Or.inl ⟨_, rfl⟩
            | some s =>
              cases fs
              · cases ff
                · cases fc
                  · exact Or.inr ⟨_, rfl, rfl⟩
                  · exact Or.inl ⟨_, rfl⟩
                · exact Or.inl ⟨_, rfl⟩
              · exact Or.inl ⟨_, rfl⟩
        · exact Or.inl ⟨_, rfl⟩
      · exact Or.inl ⟨_, rfl⟩
  cases m with
  | add_or_replace docs =>
    exact main false docs
  | add_or_update docs =>
    exact main true docs
  | delete_batch vals =>
    unfold step delete_multiple_documents finalize_commit
    cases hA : is_allowed keys headers ACL.Private with
    | error e => exact Or.inl ⟨e, rfl⟩
    | ok u =>
      cases fw
      · cases ff
        · cases fc
          · exact Or.inr ⟨_, rfl, rfl⟩
          · exact Or.inl ⟨_, rfl⟩
        · exact Or.inl ⟨_, rfl⟩
      · exact Or.inl ⟨_, rfl⟩
  | delete_one identifier =>
    unfold step delete_document finalize_commit
    cases hA : is_allowed keys headers ACL.Private with
    | error e => exact Or.inl ⟨e, rfl⟩
    | ok u =>
      cases fw
      · cases ff
        · cases fc
          · exact Or.inr ⟨_, rfl, rfl⟩
          · exact Or.inl ⟨_, rfl⟩
        · exact Or.inl ⟨_, rfl⟩
      · exact Or.inl ⟨_, rfl⟩
  | clear_batch =>
    unfold step clear_all_documents finalize_commit
    cases hA : is_allowed keys headers ACL.Private with
    | error e => exact Or.inl ⟨e, rfl⟩
    | ok u =>
      cases fw
      · cases ff
        · cases fc
          · exact Or.inr ⟨_, rfl, rfl⟩
          · exact Or.inl ⟨_, rfl⟩
        · exact Or.inl ⟨_, rfl⟩
      · exact Or.inl ⟨_, rfl⟩

/-- The accepted mutations of a run receive exactly the consecutive ids
starting at the initial counter, in commit order. -/
theorem run_mutations_ids (keys : ApiKeys) (headers : Headers)
    (ms : List (FailureOracle × Mutation)) (st : DbState) :
    (run_mutations keys headers ms st).2 =
      List.range' st.next_update_id
        (run_mutations keys headers ms st).2.length := by
  induction ms generalizing st with
  | nil => rfl
  | cons fm ms ih =>
    rcases step_shape fm.1 keys headers fm.2 st with ⟨e, hstep⟩ |
      ⟨st1, hstep, hnext⟩
    · rw [run_mutations, hstep]
      exact ih st
    · rw [run_mutations, hstep]
      have h2 := ih st1
      rw [hnext] at h2
      simp only [List.length_cons, List.range'_succ]
      exact congrArg (fun l => st.next_update_id :: l) h2

theorem chain_succ_range' (s n : Nat) :
    List.Chain' (fun a b => b = a + 1) (List.range' s n) := by
  induction n generalizing s with
  | zero => exact List.chain'_nil
  | succ n ih =>
    rw [List.range'_succ]
    apply List.chain'_cons'.mpr
    refine ⟨?_, ih (s + 1)⟩
    intro y hy
    cases n with
    | zero => simp [List.range'] at hy
    | succ m =>
      rw [List.range'_succ] at hy
      simp at hy
      omega

/-- Success equation for the addition handlers on an index that already
has a schema, with no failure injected. -/
theorem update_multiple_documents_success (keys : ApiKeys)
    (headers : Headers) ( is_partial : Bool) (data : List Document)
    (st : DbState) (s : Schema)
    (hA : is_allowed keys headers ACL.Private = .ok ())
    (hs : st.schema = some s) :
    update_multiple_documents no_fail keys headers is_partial data st =
      (.ok st.next_update_id,
       { st with
           next_update_id := st.next_update_id + 1,
           pending := st.pending ++
             [(st.next_update_id, .addition is_partial data)] }) := by
  obtain ⟨sch, docs, nid, pend⟩ := st
  have hs2 : sch = some s := hs
  subst hs2
  unfold update_multiple_documents finalize_commit no_fail
  rw [hA]
  rfl

/-- Success equation for `delete_multiple_documents` with no failure
injected. -/
theorem delete_multiple_documents_success (keys : ApiKeys)
    (headers : Headers) (data : List Val) (st : DbState)
    (hA : is_allowed keys headers ACL.Private = .ok ()) :
    delete_multiple_documents no_fail keys headers data st =
      (.ok st.next_update_id,
       { st with
           next_update_id := st.next_update_id + 1,
           pending := st.pending ++
             [(st.next_update_id, .deletion (deletion_ids data))] }) := by
  unfold delete_multiple_documents finalize_commit no_fail
  rw [hA]
  rfl

/-- Success equation for `delete_document` with no failure injected. -/
theorem delete_document_success (keys : ApiKeys) (headers : Headers)
    (identifier : String) (st : DbState)
    (hA : is_allowed keys headers ACL.Private = .ok ()) :
    delete_document no_fail keys headers identifier st =
      (.ok st.next_update_id,
       { st with
           next_update_id := st.next_update_id + 1,
           pending := st.pending ++
             [(st.next_update_id,
               .deletion [compute_document_id identifier])] }) := by
  unfold delete_document finalize_commit no_fail
  rw [hA]
  rfl

/-- A synchronous error from any of the five handlers leaves the
committed state untouched. -/
theorem step_error_state (f : FailureOracle) (keys : ApiKeys)
    (headers : Headers) (m : Mutation) (st : DbState) (e : ResponseError)
    (h : (step f keys headers m st).1 = .error e) :
    (step f keys headers m st).2 = st := by
  rcases step_shape f keys headers m st with ⟨e2, hs⟩ | ⟨st1, hs, _⟩
  · rw [hs]
  · rw [hs] at h
    simp at h

/-- Commit failure in the addition handlers: internal error, no id,
state untouched. -/
theorem update_multiple_documents_commit_fail (keys : ApiKeys)
    (headers : Headers) ( is_partial : Bool) (data : List Document)
    (st : DbState) (os : Option Schema)
    (hA : is_allowed keys headers ACL.Private = .ok ())
    (hs : stage_schema st.schema data = .ok os) :
    update_multiple_documents commit_fail_oracle keys headers is_partial
      data st = (.error (.internal "commit"), st) := by
  unfold update_multiple_documents finalize_commit commit_fail_oracle
  rw [hA, hs]
  cases os <;> rfl

/-- Commit failure in `delete_multiple_documents`. -/
theorem delete_multiple_documents_commit_fail (keys : ApiKeys)
    (headers : Headers) (data : List Val) (st : DbState)
    (hA : is_allowed keys headers ACL.Private = .ok ()) :
    delete_multiple_documents commit_fail_oracle keys headers data st =
      (.error (.internal "commit"), st) := by
  unfold delete_multiple_documents finalize_commit commit_fail_oracle
  rw [hA]
  rfl

/-- Commit failure in `delete_document`. -/
theorem delete_document_commit_fail (keys : ApiKeys) (headers : Headers)
    (identifier : String) (st : DbState)
    (hA : is_allowed keys headers ACL.Private = .ok ()) :
    delete_document commit_fail_oracle keys headers identifier st =
      (.error (.internal "commit"), st) := by
  unfold delete_document finalize_commit commit_fail_oracle
  rw [hA]
  rfl

/-- Commit failure in `clear_all_documents`. -/
theorem clear_all_documents_commit_fail (keys : ApiKeys)
    (headers : Headers) (st : DbState)
    (hA : is_allowed keys headers ACL.Private = .ok ()) :
    clear_all_documents commit_fail_oracle keys headers st =
      (.error (.internal "commit"), st) := by
  unfold clear_all_documents finalize_commit commit_fail_oracle
  rw [hA]
  rfl

/-! ## Lookup lemmas for the merge semantics -/

theorem lookup_append_or (l₁ l₂ : Document) (a : String) :
    (l₁ ++ l₂).lookup a = (l₁.lookup a).or (l₂.lookup a) := by
  induction l₁ with
  | nil => simp [List.lookup]
  | cons p l ih =>
    obtain ⟨k, v⟩ := p
    cases h : (a == k) <;> simp [List.lookup, h, ih]

theorem lookup_filter_isNone (old new : Document) (a : String) :
    (old.filter (fun p => (new.lookup p.1).isNone)).lookup a =
      if (new.lookup a).isSome then none else old.lookup a := by
  induction old with
  | nil => simp [List.lookup]
  | cons p l ih =>
    obtain ⟨k, v⟩ := p
    cases hak : (a == k) with
    | true =>
      have hk : a = k := by simpa using hak
      subst hk
      cases hn : new.lookup a with
      | some w => simp [List.filter_cons, hn, List.lookup, hak, ih]
      | none => simp [List.filter_cons, hn, List.lookup, hak]
    | false =>
      cases hn : (new.lookup k).isNone <;>
        simp [List.filter_cons, hn, List.lookup, hak, ih]

theorem merge_document_lookup (old new : Document) (a : String) :
    (merge_document old new).lookup a = (new.lookup a).or (old.lookup a) := by
  rw [merge_document, lookup_append_or, lookup_filter_isNone]
  cases h : new.lookup a <;> simp

/-! ## Processing lemmas -/

theorem apply_addition_nil ( is_partial : Bool) (s : Schema)
    (store : Store) : apply_addition is_partial s [] store = store := rfl

/-- Deleting ids none of which is stored is a silent no-op. -/
theorem process_update_deletion_noop (schema : Option Schema)
    (ids : List Nat) (store : Store) (h : ∀ p ∈ store, p.1 ∉ ids) :
    process_update schema (.deletion ids) store = .ok store := by
  have hred : process_update schema (.deletion ids) store =
      .ok (store.filter (fun p => !(ids.contains p.1))) := rfl
  rw [hred]
  congr 1
  apply List.filter_eq_self.mpr
  intro p hp
  have := h p hp
  simp only [Bool.not_eq_true']
  cases hc : ids.contains p.1
  · rfl
  · exact absurd (by simpa using hc) this

theorem infered_schema_eq (doc : Document) :
    infered_schema doc =
      match (doc.map Prod.fst).find? is_id_key with
      | some identifier =>
          some ⟨identifier,
            (doc.map Prod.fst).map (fun key => ⟨key, true, true⟩)⟩
      | none => none := by
  unfold infered_schema
  rw [find_identifier_eq_find]

theorem satisfies_acl_admin (keys : ApiKeys) (cred : String) :
    satisfies_acl keys ACL.Admin cred = true ↔ keys.master = some cred := by
  unfold satisfies_acl
  rw [beq_iff_eq]
  exact eq_comm

theorem satisfies_acl_private (keys : ApiKeys) (cred : String) :
    satisfies_acl keys ACL.Private cred = true ↔
      (keys.master = some cred ∨ keys.private_key = some cred) := by
  unfold satisfies_acl
  rw [Bool.or_eq_true, beq_iff_eq, beq_iff_eq]
  exact ⟨fun h => h.imp Eq.symm Eq.symm, fun h => h.imp Eq.symm Eq.symm⟩

theorem satisfies_acl_public (keys : ApiKeys) (cred : String) :
    satisfies_acl keys ACL.Public cred = true ↔
      (keys.master = some cred ∨ keys.private_key = some cred ∨
       keys.public_key = some cred) := by
  unfold satisfies_acl
  rw [Bool.or_eq_true, Bool.or_eq_true, beq_iff_eq, beq_iff_eq, beq_iff_eq]
  constructor
  · rintro ((h | h) | h)
    · exact Or.inl h.symm
    · exact Or.inr (Or.inl h.symm)
    · exact Or.inr (Or.inr h.symm)
  · rintro (h | h | h)
    · exact Or.inl (Or.inl h.symm)
    · exact Or.inl (Or.inr h.symm)
    · exact Or.inr h.symm

theorem ite_ok_iff (b : Bool) (cred : String) :
    (if b then (.ok () : Except ResponseError Unit)
     else .error (.invalid_token cred)) = .ok () ↔ b = true := by
  cases b <;> simp

/-! ## Demo inputs for closed instantiations -/

def demo_keys : ApiKeys := ⟨some "master-key", some "private-key", some "public-key"⟩

def demo_headers : Headers := [("X-Meili-API-Key", "master-key")]

def empty_index : DbState := ⟨none, [], 0, []⟩

def sample_doc : Document :=
  [("name", .str "n"), ("productId", .str "p"), ("price", .num 10)]

def demo_schema : Schema :=
  ⟨"id", [⟨"id", true, true⟩, ⟨"title", true, true⟩]⟩

def schema_index : DbState := ⟨some demo_schema, [], 5, []⟩

/-! ## Claims -/

/-- C1: schema inference designates as identifier the first attribute
whose name contains "id" case-insensitively, marks every attribute of
the document displayed and indexed, fails — surfaced as a bad request by
the handler — exactly when no attribute name matches, and consults only
the first document of the batch. -/
theorem claim_C1 :
    (∀ (doc : Document) (s : Schema), infered_schema doc = some s →
       (doc.map Prod.fst).find? is_id_key = some s.identifier ∧
       s.attributes = (doc.map Prod.fst).map (fun key => ⟨key, true, true⟩) ∧
       ∀ a ∈ s.attributes, a.displayed = true ∧ a.indexed = true) ∧
    (∀ doc : Document,
       infered_schema doc = none ↔
         ∀ key ∈ doc.map Prod.fst, is_id_key key = false) ∧
    (∀ key, is_id_key key = true ↔
       "id".toList <:+: (to_lowercase key).toList) ∧
    (∀ (cs : Option Schema) (d : Document) (r : List Document),
       stage_schema cs (d :: r) =
           .error (.bad_request "Could not infer a schema") ↔
         (cs = none ∧ infered_schema d = none)) ∧
    (∀ (cs : Option Schema) (d : Document) (r r' : List Document),
       stage_schema cs (d :: r) = stage_schema cs (d :: r')) := by
  refine ⟨?_, ?_, ?_, ?_, ?_⟩
  · intro doc s h
    rw [infered_schema_eq] at h
    cases hf : (doc.map Prod.fst).find? is_id_key with
    | none => rw [hf] at h; simp at h
    | some i =>
      rw [hf] at h
      have hs := Option.some.inj h
      subst hs
      refine ⟨rfl, rfl, ?_⟩
      intro a ha
      simp only [List.mem_map] at ha
      obtain ⟨key, _, rfl⟩ := ha
      exact ⟨rfl, rfl⟩
  · intro doc
    rw [infered_schema_eq]
    cases hf : (doc.map Prod.fst).find? is_id_key with
    | none =>
      simp only []
      constructor
      · intro _ key hk
        have := List.find?_eq_none.mp hf key hk
        simpa using this
      · intro _; trivial
    | some i =>
      simp only []
      constructor
      · intro h; simp at h
      · intro hall
        have h1 : is_id_key i = true := List.find?_some hf
        have h2 : i ∈ doc.map Prod.fst := List.mem_of_find?_eq_some hf
        have := hall i h2
        simp_all
  · intro key
    exact is_id_key_iff_infix key
  · intro cs d r
    cases cs with
    | some s => simp [stage_schema]
    | none =>
      cases hi : infered_schema d with
      | some s => simp [stage_schema, hi]
      | none => simp [stage_schema, hi]
  · intro cs d r r'
    cases cs <;> rfl

/-- C1 instantiated at the spec's own example document: the attribute
list `["name", "productId", "price"]` yields identifier "productId" and
all-displayed, all-indexed attributes. -/
theorem claim_C1_witness :
    (sample_doc.map Prod.fst).find? is_id_key = some "productId" ∧
    (infered_schema sample_doc).isSome = true := by
  have h := claim_C1.1 sample_doc
    ⟨"productId",
      (sample_doc.map Prod.fst).map (fun key => ⟨key, true, true⟩)⟩
    (by rfl)
  exact ⟨h.1, by rfl⟩

/-- C2: with a presented credential, `is_allowed` succeeds at `Admin`
iff it equals the configured master key, at `Private` iff it equals the
master or private key, at `Public` iff it equals any of the three; an
unconfigured master never grants `Admin`. -/
theorem claim_C2 : ∀ (keys : ApiKeys) (cred : String),
    (is_allowed keys [("X-Meili-API-Key", cred)] ACL.Admin = .ok () ↔
       keys.master = some cred) ∧
    (is_allowed keys [("X-Meili-API-Key", cred)] ACL.Private = .ok () ↔
       (keys.master = some cred ∨ keys.private_key = some cred)) ∧
    (is_allowed keys [("X-Meili-API-Key", cred)] ACL.Public = .ok () ↔
       (keys.master = some cred ∨ keys.private_key = some cred ∨
        keys.public_key = some cred)) ∧
    (keys.master = none →
       is_allowed keys [("X-Meili-API-Key", cred)] ACL.Admin =
         .error (.invalid_token cred)) := by
  intro keys cred
  refine ⟨?_, ?_, ?_, ?_⟩
  · rw [is_allowed_single_header, ite_ok_iff, satisfies_acl_admin]
  · rw [is_allowed_single_header, ite_ok_iff, satisfies_acl_private]
  · rw [is_allowed_single_header, ite_ok_iff, satisfies_acl_public]
  · intro hm
    rw [is_allowed_single_header]
    have hb : satisfies_acl keys ACL.Admin cred = false := by
      unfold satisfies_acl
      rw [hm]
      rfl
    rw [hb]
    rfl

/-- C2 instantiated: a credential that is none of the configured keys
is rejected at `Admin` when no master key is configured. -/
theorem claim_C2_witness :
    is_allowed ⟨none, some "private-key", some "public-key"⟩
        [("X-Meili-API-Key", "x")] ACL.Admin =
      .error (.invalid_token "x") :=
  (claim_C2 ⟨none, some "private-key", some "public-key"⟩ "x").2.2.2 rfl

/-- C3: for every sequence of submissions against one index, the
update-ids returned for the accepted (committed) ones are exactly the
consecutive integers from the initial counter, hence strictly
increasing, gap-free, and ordered identically to commit order. -/
theorem claim_C3 : ∀ (keys : ApiKeys) (headers : Headers)
    (ms : List (FailureOracle × Mutation)) (st : DbState),
    (run_mutations keys headers ms st).2 =
      List.range' st.next_update_id
        (run_mutations keys headers ms st).2.length ∧
    List.Pairwise (· < ·) (run_mutations keys headers ms st).2 ∧
    List.Chain' (fun a b => b = a + 1)
      (run_mutations keys headers ms st).2 := by
  intro keys headers ms st
  have h := run_mutations_ids keys headers ms st
  refine ⟨h, ?_, ?_⟩
  · rw [h]
    exact List.pairwise_lt_range' _ _
  · rw [h]
    exact chain_succ_range' _ _

/-- C3 instantiated: three submissions of which the second is rejected
by a commit failure yield exactly the ids 5 and 6. -/
theorem claim_C3_witness :
    (run_mutations demo_keys demo_headers
      [(no_fail, .clear_batch), (commit_fail_oracle, .clear_batch),
       (no_fail, .delete_batch [])] schema_index).2 =
      List.range' schema_index.next_update_id
        (run_mutations demo_keys demo_headers
          [(no_fail, .clear_batch), (commit_fail_oracle, .clear_batch),
           (no_fail, .delete_batch [])] schema_index).2.length :=
  (claim_C3 demo_keys demo_headers
    [(no_fail, .clear_batch), (commit_fail_oracle, .clear_batch),
     (no_fail, .delete_batch [])] schema_index).1

/-- C4: a synchronous error from any mutation handler leaves the
committed store unchanged and issues no update-id (the error response
carries none), and an injected commit failure surfaces as the internal
"commit" error with the state unchanged in every handler. -/
theorem claim_C4 :
    (∀ (f : FailureOracle) (keys : ApiKeys) (headers : Headers)
       (m : Mutation) (st : DbState) (e : ResponseError),
       (step f keys headers m st).1 = .error e →
       (step f keys headers m st).2 = st) ∧
    (∀ (keys : ApiKeys) (headers : Headers) ( is_partial : Bool)
       (data : List Document) (st : DbState) (os : Option Schema),
       is_allowed keys headers ACL.Private = .ok () →
       stage_schema st.schema data = .ok os →
       update_multiple_documents commit_fail_oracle keys headers
         is_partial data st = (.error (.internal "commit"), st)) ∧
    (∀ (keys : ApiKeys) (headers : Headers) (data : List Val)
       (st : DbState),
       is_allowed keys headers ACL.Private = .ok () →
       delete_multiple_documents commit_fail_oracle keys headers data st =
         (.error (.internal "commit"), st)) ∧
    (∀ (keys : ApiKeys) (headers : Headers) (identifier : String)
       (st : DbState),
       is_allowed keys headers ACL.Private = .ok () →
       delete_document commit_fail_oracle keys headers identifier st =
         (.error (.internal "commit"), st)) ∧
    (∀ (keys : ApiKeys) (headers : Headers) (st : DbState),
       is_allowed keys headers ACL.Private = .ok () →
       clear_all_documents commit_fail_oracle keys headers st =
         (.error (.internal "commit"), st)) :=
  ⟨step_error_state, update_multiple_documents_commit_fail,
   delete_multiple_documents_commit_fail, delete_document_commit_fail,
   clear_all_documents_commit_fail⟩

/-- C4 instantiated: a commit failure on a batch deletion returns the
internal "commit" error and leaves the empty index untouched. -/
theorem claim_C4_witness :
    delete_multiple_documents commit_fail_oracle demo_keys demo_headers
        [] empty_index = (.error (.internal "commit"), empty_index) :=
  claim_C4.2.2.1 demo_keys demo_headers [] empty_index (by rfl)

/-- C5: two upserts colliding on the identifier value leave exactly one
stored document — the second document verbatim on the full-replace path,
and on the partial-update path a single document in which the second's
attributes override while the first's other attributes are retained. -/
theorem claim_C5 : ∀ (schema : Schema) (d1 d2 : Document) (id : Nat),
    document_id_of schema d1 = some id →
    document_id_of schema d2 = some id →
    apply_addition false schema [d2] (apply_addition false schema [d1] [])
      = [(id, d2)] ∧
    (∃ m,
      apply_addition true schema [d2] (apply_addition true schema [d1] [])
        = [(id, m)] ∧
      ∀ a, m.lookup a = (d2.lookup a).or (d1.lookup a)) := by
  intro schema d1 d2 id h1 h2
  constructor
  · have e1 : apply_addition false schema [d1] ([] : Store) = [(id, d1)] := by
      simp [apply_addition, h1, store_replace]
    rw [e1]
    simp [apply_addition, h2, store_replace]
  · refine ⟨merge_document d1 d2, ?_, fun a => merge_document_lookup d1 d2 a⟩
    have e1 : apply_addition true schema [d1] ([] : Store) = [(id, d1)] := by
      simp [apply_addition, h1, store_replace, List.lookup]
    rw [e1]
    simp [apply_addition, h2, store_replace, List.lookup]

def doc_a1 : Document := [("id", .str "a"), ("title", .str "x")]

def doc_a2 : Document := [("id", .str "a"), ("body", .str "y")]

/-- C5 instantiated on two concrete documents sharing identifier "a". -/
theorem claim_C5_witness :
    apply_addition false demo_schema [doc_a2]
        (apply_addition false demo_schema [doc_a1] []) =
      [(compute_document_id "a", doc_a2)] ∧
    (∃ m, apply_addition true demo_schema [doc_a2]
        (apply_addition true demo_schema [doc_a1] []) =
      [(compute_document_id "a", m)] ∧
      ∀ a, m.lookup a = (doc_a2.lookup a).or (doc_a1.lookup a)) :=
  claim_C5 demo_schema doc_a1 doc_a2 (compute_document_id "a")
    (by rfl) (by rfl)

/-- C6: deletion derives its target ids by the same derivation as the
write path; a deletion request is accepted with the next update-id and
stages exactly the derived ids; and processing a deletion whose ids
were never written does not fail and leaves the document store — hence
the document count — unchanged. -/
theorem claim_C6 :
    (∀ (schema : Schema) (doc : Document) (v : Val),
       doc.lookup schema.identifier = some v →
       document_id_of schema doc =
         (value_to_string v).map compute_document_id) ∧
    (∀ (keys : ApiKeys) (headers : Headers) (data : List Val)
       (st : DbState),
       is_allowed keys headers ACL.Private = .ok () →
       delete_multiple_documents no_fail keys headers data st =
         (.ok st.next_update_id,
          { st with
              next_update_id := st.next_update_id + 1,
              pending := st.pending ++
                [(st.next_update_id, .deletion (deletion_ids data))] })) ∧
    (∀ (keys : ApiKeys) (headers : Headers) (identifier : String)
       (st : DbState),
       is_allowed keys headers ACL.Private = .ok () →
       delete_document no_fail keys headers identifier st =
         (.ok st.next_update_id,
          { st with
              next_update_id := st.next_update_id + 1,
              pending := st.pending ++
                [(st.next_update_id,
                  .deletion [compute_document_id identifier])] })) ∧
    (∀ (schema : Option Schema) (ids : List Nat) (store : Store),
       (∀ p ∈ store, p.1 ∉ ids) →
       process_update schema (.deletion ids) store = .ok store) := by
  refine ⟨?_, delete_multiple_documents_success, delete_document_success,
    process_update_deletion_noop⟩
  intro schema doc v hv
  unfold document_id_of
  rw [hv]
  rfl

/-- C6 instantiated: deleting a never-written identifier leaves a
one-document store unchanged and does not fail. -/
theorem claim_C6_witness :
    process_update (some demo_schema)
        (.deletion [compute_document_id "zzz"])
        [(compute_document_id "a", doc_a1)] =
      .ok [(compute_document_id "a", doc_a1)] :=
  claim_C6.2.2.2 (some demo_schema) [compute_document_id "zzz"]
    [(compute_document_id "a", doc_a1)] (by decide)

/-- C7 as stated is false on the code: on an index with no schema, an
empty batch is rejected with the "Could not infer a schema" bad request
instead of being accepted with an update-id. -/
theorem claim_C7_counterexample :
    update_multiple_documents no_fail demo_keys demo_headers false []
        empty_index =
      (.error (.bad_request "Could not infer a schema"), empty_index) := by
  rfl

/-- C7 (amended): on an index that already has a schema, an empty batch
submitted to either addition path is accepted with the next update-id
and its processing is a no-op; on a schema-less index the empty batch
is rejected as a bad request (schema inference has no document). -/
theorem claim_C7 : ∀ (keys : ApiKeys) (headers : Headers)
    ( is_partial : Bool) (st : DbState) (s : Schema),
    st.schema = some s →
    is_allowed keys headers ACL.Private = .ok () →
    (update_multiple_documents no_fail keys headers is_partial [] st =
      (.ok st.next_update_id,
       { st with
           next_update_id := st.next_update_id + 1,
           pending := st.pending ++
             [(st.next_update_id, .addition is_partial [])] }) ∧
     ∀ store : Store,
       process_update (some s) (.addition is_partial []) store =
         .ok store) := by
  intro keys headers p st s hs hA
  refine ⟨update_multiple_documents_success keys headers p [] st s hA hs, ?_⟩
  intro store
  rfl

/-- C7 (amended) instantiated on a schema-bearing index. -/
theorem claim_C7_witness :
    update_multiple_documents no_fail demo_keys demo_headers false []
        schema_index =
      (.ok schema_index.next_update_id,
       { schema_index with
           next_update_id := schema_index.next_update_id + 1,
           pending := schema_index.pending ++
             [(schema_index.next_update_id, .addition false [])] }) ∧
    ∀ store : Store,
      process_update (some demo_schema) (.addition false []) store =
        .ok store :=
  claim_C7 demo_keys demo_headers false schema_index demo_schema rfl (by rfl)

theorem contains_filter_ne (store : CommonStore) :
    (store.filter (fun k => !(k == UNHEALTHY_KEY))).contains UNHEALTHY_KEY
      = false := by
  induction store with
  | nil => rfl
  | cons k l ih =>
    cases hk : (k == UNHEALTHY_KEY) with
    | true => simp [List.filter_cons, hk, ih]
    | false =>
      have hne : ¬(k = UNHEALTHY_KEY) := by simpa using hk
      simp [List.filter_cons, hk, List.contains_cons, ih, beq_iff_eq,
        Ne.symm hne]

/-- C8: authorization fails with a missing-credential error exactly when
no `X-Meili-API-Key` header is present, and with an invalid-credential
error exactly when one is present whose value does not satisfy the
required level's tier rule; the two error constructors are distinct, so
the two causes stay distinguishable. -/
theorem claim_C8 : ∀ (keys : ApiKeys) (headers : Headers) (acl : ACL),
    ((∃ n, is_allowed keys headers acl = .error (.missing_header n)) ↔
       headers.find? (fun p => p.1 == "X-Meili-API-Key") = none) ∧
    ((∃ t, is_allowed keys headers acl = .error (.invalid_token t)) ↔
       (∃ q, headers.find? (fun p => p.1 == "X-Meili-API-Key") = some q ∧
         satisfies_acl keys acl q.2 = false)) ∧
    (∀ n t, ResponseError.missing_header n ≠ ResponseError.invalid_token t) := by
  intro keys headers acl
  refine ⟨?_, ?_, ?_⟩
  · rw [is_allowed_eq]
    cases hf : headers.find? (fun p => p.1 == "X-Meili-API-Key") with
    | none => simp
    | some p =>
      cases hs : satisfies_acl keys acl p.2 <;> simp [hs]
  · rw [is_allowed_eq]
    cases hf : headers.find? (fun p => p.1 == "X-Meili-API-Key") with
    | none => simp
    | some p =>
      cases hs : satisfies_acl keys acl p.2 <;> simp [hs]
  · intro n t h
    exact ResponseError.noConfusion h

/-- C8 instantiated: with no headers at all the failure is the
missing-credential error. -/
theorem claim_C8_witness :
    ∃ n, is_allowed demo_keys [] ACL.Admin = .error (.missing_header n) :=
  ((claim_C8 demo_keys [] ACL.Admin).1).mpr rfl

/-- C9: the unhealthy marker is settable and clearable only under Admin
— an authorization failure returns that error with the flag store
unchanged, and success implies the Admin check passed — while the
health read takes no credential and never fails with an authorization
error; after a committed `set_unhealthy` the health read reports
Maintenance, and after a committed `set_healthy` it succeeds. -/
theorem claim_C9 :
    (∀ (wf pf cf : Bool) (keys : ApiKeys) (headers : Headers)
       (store : CommonStore) (e : ResponseError),
       is_allowed keys headers ACL.Admin = .error e →
       set_unhealthy wf pf cf keys headers store = (.error e, store) ∧
       set_healthy wf pf cf keys headers store = (.error e, store)) ∧
    (∀ (wf pf cf : Bool) (keys : ApiKeys) (headers : Headers)
       (store : CommonStore),
       (set_unhealthy wf pf cf keys headers store).1 = .ok () →
       is_allowed keys headers ACL.Admin = .ok ()) ∧
    (∀ (wf pf cf : Bool) (keys : ApiKeys) (headers : Headers)
       (store : CommonStore),
       (set_healthy wf pf cf keys headers store).1 = .ok () →
       is_allowed keys headers ACL.Admin = .ok ()) ∧
    (∀ (wf pf cf : Bool) (keys : ApiKeys) (headers : Headers)
       (store store' : CommonStore),
       set_unhealthy wf pf cf keys headers store = (.ok (), store') →
       get_health false store' = .error .maintenance) ∧
    (∀ (wf pf cf : Bool) (keys : ApiKeys) (headers : Headers)
       (store store' : CommonStore),
       set_healthy wf pf cf keys headers store = (.ok (), store') →
       get_health false store' = .ok ()) ∧
    (∀ (rf : Bool) (store : CommonStore) (n : String),
       get_health rf store ≠ .error (.missing_header n)) ∧
    (∀ (rf : Bool) (store : CommonStore) (t : String),
       get_health rf store ≠ .error (.invalid_token t)) := by
  refine ⟨?_, ?_, ?_, ?_, ?_, ?_, ?_⟩
  · intro wf pf cf keys headers store e hA
    unfold set_unhealthy set_healthy
    rw [hA]
    exact ⟨rfl, rfl⟩
  · intro wf pf cf keys headers store h
    cases hA : is_allowed keys headers ACL.Admin with
    | error e =>
      unfold set_unhealthy at h
      rw [hA] at h
      simp at h
    | ok u => cases u; rfl
  · intro wf pf cf keys headers store h
    cases hA : is_allowed keys headers ACL.Admin with
    | error e =>
      unfold set_healthy at h
      rw [hA] at h
      simp at h
    | ok u => cases u; rfl
  · intro wf pf cf keys headers store store' h
    unfold set_unhealthy at h
    cases hA : is_allowed keys headers ACL.Admin with
    | error e => rw [hA] at h; simp at h
    | ok u =>
      rw [hA] at h
      cases wf with
      | true => simp at h
      | false =>
        cases pf with
        | true => simp at h
        | false =>
          cases cf with
          | true => simp at h
          | false =>
            have hst : store' = (if store.contains UNHEALTHY_KEY then store
                else UNHEALTHY_KEY :: store) := by
              have h2 := congrArg Prod.snd h
              simpa using h2.symm
            subst hst
            unfold get_health
            cases hc : store.contains UNHEALTHY_KEY with
            | true =>
              simp [hc]
              simpa using hc
            | false => simp [hc, List.contains_cons]
  · intro wf pf cf keys headers store store' h
    unfold set_healthy at h
    cases hA : is_allowed keys headers ACL.Admin with
    | error e => rw [hA] at h; simp at h
    | ok u =>
      rw [hA] at h
      cases wf with
      | true => simp at h
      | false =>
        cases pf with
        | true => simp at h
        | false =>
          cases cf with
          | true => simp at h
          | false =>
            have hst : store' = store.filter (fun k => !(k == UNHEALTHY_KEY)) := by
              have h2 := congrArg Prod.snd h
              simpa using h2.symm
            subst hst
            unfold get_health
            simp [contains_filter_ne]
  · intro rf store n
    unfold get_health
    cases rf with
    | true => simp
    | false =>
      cases hc : store.contains UNHEALTHY_KEY with
      | true => simp
      | false => simp
  · intro rf store t
    unfold get_health
    cases rf with
    | true => simp
    | false =>
      cases hc : store.contains UNHEALTHY_KEY with
      | true => simp
      | false => simp

/-- C9 instantiated: a committed `set_unhealthy` leaves the health read
reporting Maintenance. -/
theorem claim_C9_witness :
    get_health false [UNHEALTHY_KEY] = .error .maintenance :=
  claim_C9.2.2.2.1 false false false demo_keys demo_headers []
    [UNHEALTHY_KEY] (by rfl)

/-- C10: the key listing requires Admin and returns exactly the private
and public keys, never the master; two configurations agreeing on the
private and public keys yield identical successful responses whatever
their master keys. -/
theorem claim_C10 :
    (∀ (keys : ApiKeys) (headers : Headers) (r : KeysResponse),
       list keys headers = .ok r →
       r = ⟨keys.private_key, keys.public_key⟩ ∧
       is_allowed keys headers ACL.Admin = .ok ()) ∧
    (∀ (k1 k2 : ApiKeys) (h1 h2 : Headers) (r1 r2 : KeysResponse),
       k1.private_key = k2.private_key → k1.public_key = k2.public_key →
       list k1 h1 = .ok r1 → list k2 h2 = .ok r2 → r1 = r2) := by
  have base : ∀ (keys : ApiKeys) (headers : Headers) (r : KeysResponse),
      list keys headers = .ok r →
      r = ⟨keys.private_key, keys.public_key⟩ ∧
      is_allowed keys headers ACL.Admin = .ok () := by
    intro keys headers r h
    cases hA : is_allowed keys headers ACL.Admin with
    | error e =>
      unfold list at h
      rw [hA] at h
      simp at h
    | ok u =>
      unfold list at h
      rw [hA] at h
      cases u
      injection h with hr
      exact ⟨hr.symm, rfl⟩
  refine ⟨base, ?_⟩
  intro k1 k2 h1 h2 r1 r2 hp hq e1 e2
  have b1 := (base k1 h1 r1 e1).1
  have b2 := (base k2 h2 r2 e2).1
  rw [b1, b2, hp, hq]

/-- C10 instantiated: two configurations sharing private/public keys but
with different master keys produce the same successful listing. -/
theorem claim_C10_witness :
    (⟨some "p", some "q"⟩ : KeysResponse) = ⟨some "p", some "q"⟩ :=
  claim_C10.2 ⟨some "m1", some "p", some "q"⟩ ⟨some "m2", some "p", some "q"⟩
    [("X-Meili-API-Key", "m1")] [("X-Meili-API-Key", "m2")]
    ⟨some "p", some "q"⟩ ⟨some "p", some "q"⟩ rfl rfl (by rfl) (by rfl)
